import Mathlib

/-!
Verification of the cryptography-portafolio repository: a shallow embedding of
the hash-tool UI controller, the RSA-tool UI controller and the dark-mode
toggle script, together with spec-modelled definitions for the collaborator
modules (`MathUtils`, `RSACore`, `Config`) that the controllers call but that
are not part of the excerpted sources.

Strings typed by the user are modelled as lists of UTF-16 code units
(`List ℕ`); DOM/UI effects are modelled as an explicit trace of events.
-/

namespace MathUtils

/-- Halving recursion for `bitLength`; the first argument is fuel bounding
the recursion depth (the number itself suffices). -/
def bitLengthAux : ℕ → ℕ → ℕ
  | _, 0 => 0
  | 0, _ + 1 => 0
  | fuel + 1, n + 1 => bitLengthAux fuel ((n + 1) / 2) + 1

/-- Modelled from the spec: `MathUtils.bitLength` is not in the sources; the
textbook RSA flow of the spec uses the bit length of the modulus.  Modelled as the
number of binary digits of `n` (0 for `n = 0`). -/
def bitLength (n : ℕ) : ℕ := bitLengthAux n n

/-- Modelled from the spec: `MathUtils.stringToBigInt` is not in the sources.
Modelled as the big-endian base-256 interpretation of the character codes
of the message, the standard textbook encoding of a message as an integer. -/
def stringToBigInt (s : List ℕ) : ℕ := Nat.ofDigits 256 s.reverse

/-- Modelled from the spec: `MathUtils.bigIntToString` is not in the sources.
Modelled as the inverse of `stringToBigInt`: the big-endian base-256 digits
of the integer, as character codes. -/
def bigIntToString (n : ℕ) : List ℕ := (Nat.digits 256 n).reverse

/-- Modelled from the spec: the spec names the extended Euclidean algorithm
for the modular inverse.  `Nat.gcdA` is the Mathlib extended-Euclid Bezout
coefficient; the inverse of `a` modulo `m` is that coefficient reduced
modulo `m`. -/
def modInverse (a m : ℕ) : ℕ := (Nat.gcdA a m % (m : ℤ)).toNat

end MathUtils

/-- JavaScript whitespace code units recognised by `String.prototype.trim`
(the common ones: tab, line feed, vertical tab, form feed, carriage return,
space, no-break space, BOM, and the general Unicode space separators). -/
def isJsWhitespace (c : ℕ) : Bool :=
  c = 9 || c = 10 || c = 11 || c = 12 || c = 13 || c = 32 || c = 160 ||
  c = 5760 || (8192 ≤ c && c ≤ 8202) || c = 8232 || c = 8233 ||
  c = 8239 || c = 8287 || c = 12288 || c = 65279

/-- JS `String.prototype.trim`: drop leading and trailing whitespace. -/
def jsTrim (s : List ℕ) : List ℕ :=
  ((s.dropWhile isJsWhitespace).reverse.dropWhile isJsWhitespace).reverse

/-- Modelled from the spec: the `BigInt` constructor applied to the
text of the ciphertext field, restricted to plain decimal numerals; any other
content makes the constructor throw, modelled as `none`. -/
def parseBigInt (s : List ℕ) : Option ℕ :=
  if s ≠ [] ∧ ∀ c ∈ s, 48 ≤ c ∧ c ≤ 57 then
    some (s.foldl (fun acc c => acc * 10 + (c - 48)) 0)
  else none

namespace RSACore

/-- An RSA public key `(n, e)` as produced by key generation. -/
structure PublicKey where
  n : ℕ
  e : ℕ
  deriving DecidableEq, Repr

/-- An RSA private key `(n, d)` as produced by key generation. -/
structure PrivateKey where
  n : ℕ
  d : ℕ
  deriving DecidableEq, Repr

/-- The full key object stored in `currentKeys`: public and private key plus
the educational fields `p`, `q`, `phi` displayed by `displayKeys`. -/
structure KeyPair where
  publicKey : PublicKey
  privateKey : PrivateKey
  p : ℕ
  q : ℕ
  phi : ℕ
  deriving DecidableEq, Repr

/-- Modelled from the spec: textbook RSA encryption, modular exponentiation
with the public exponent. -/
def encrypt (m : ℕ) (pub : PublicKey) : ℕ := m ^ pub.e % pub.n

/-- Modelled from the spec: textbook RSA decryption, modular exponentiation
with the private exponent. -/
def decrypt (c : ℕ) (priv : PrivateKey) : ℕ := c ^ priv.d % priv.n

/-- Modelled from the spec: `RSACore.generateKeyPair` is not in the sources.
Given the two primes `p`, `q` found by the random prime search and the public
exponent `e`, the textbook flow computes the modulus `n = p * q`, the Euler
totient `phi = (p - 1) * (q - 1)` and the private exponent
`d = e⁻¹ mod phi` by the extended Euclidean algorithm. -/
def generateKeyPair (p q e : ℕ) : KeyPair :=
  let n := p * q
  let phi := (p - 1) * (q - 1)
  let d := MathUtils.modInverse e phi
  ⟨⟨n, e⟩, ⟨n, d⟩, p, q, phi⟩

/-- Modelled from the spec: the progress stages reported by
`RSACore.generateKeyPair` to its callback, in the textbook order the spec
describes: prime `p`, prime `q`, modulus, totient, private exponent,
completion. -/
def keyGenStages : List String :=
  ["Generating prime p", "Generating prime q", "Computing modulus n",
   "Computing φ(n)", "Computing private exponent d", "Complete"]

end RSACore

/-- Attempt data occasionally passed to the progress callback during prime
generation. -/
structure ProgressData where
  attempt : ℕ
  isPrime : Bool
  deriving DecidableEq, Repr

/-- The RSA-specific progress message rendered by `updateProgress` for a
given stage (the `switch` in the RSA controller); unknown stages render the
empty message. -/
def updateProgress (stage : String) (data : Option ProgressData) : String :=
  let detail :=
    match data with
    | none => ""
    | some d =>
        "<p class=\"progress-detail\">Attempt " ++ toString d.attempt ++
          (if d.isPrime then " ✓ Prime found!" else "") ++ "</p>"
  if stage = "Generating prime p" then
    "<p><strong>Step 1/4:</strong> Generating prime p...</p>" ++ detail
  else if stage = "Generating prime q" then
    "<p><strong>Step 2/4:</strong> Generating prime q...</p>" ++ detail
  else if stage = "Computing modulus n" then
    "<p><strong>Step 3/4:</strong> Computing modulus n = p × q...</p>"
  else if stage = "Computing φ(n)" then
    "<p><strong>Step 3/4:</strong> Computing Euler\x27s totient φ(n)...</p>"
  else if stage = "Computing private exponent d" then
    "<p><strong>Step 4/4:</strong> Computing private exponent d...</p>"
  else if stage = "Complete" then
    "<p><strong>✓ Key generation complete!</strong></p>"
  else ""

/-- The modified input built by `handleAvalanche`: the last code unit with
its lowest bit flipped, except that `~` (126) becomes `|` (124) so the
non-printable DEL character (127) never appears. -/
def flipLastCodeUnit (c : ℕ) : ℕ := if c = 126 then 124 else c ^^^ 1

/-- The expression `baseInput.slice(0, -1) + String.fromCharCode(...)` from
`handleAvalanche`: all but the last code unit, then the flipped last code
unit. -/
def modifiedInput (s : List ℕ) : List ℕ :=
  s.dropLast ++ [flipLastCodeUnit (s.getLastD 0)]

/-- The avalanche quality label computed in `displayAvalancheResults` from
the avalanche percentage. -/
def avalancheQuality (p : ℚ) : String :=
  if 45 ≤ p ∧ p ≤ 55 then "Excellent"
  else if 40 ≤ p ∧ p ≤ 60 then "Good"
  else "Poor"

/-- Name and output size of a hash algorithm, from the configuration
module. -/
structure AlgoInfo where
  name : String
  outputBits : ℕ
  deriving DecidableEq, Repr

/-- Modelled from the spec: `Config.getAlgorithmInfo` is not in the sources.
The tool demonstrates MD5, SHA-1, SHA-256 and SHA-3; any other identifier is
unknown (`none`). -/
def getAlgorithmInfo (algorithm : String) : Option AlgoInfo :=
  if algorithm = "md5" then some ⟨"MD5", 128⟩
  else if algorithm = "sha1" then some ⟨"SHA-1", 160⟩
  else if algorithm = "sha256" then some ⟨"SHA-256", 256⟩
  else if algorithm = "sha3" then some ⟨"SHA-3", 256⟩
  else none

/-!
Dark-mode toggle (`src/js/dark-mode-toggle.js`).  The relevant browser state
is the `data-theme` attribute of the document element, the `theme` key in
`localStorage`, the system dark-mode preference, and the optional toggle
button with its text and aria-label.
-/

/-- Browser state seen by the dark-mode toggle script. -/
structure ThemeState where
  dataTheme : Option String
  storedTheme : Option String
  systemPrefersDark : Bool
  hasToggleBtn : Bool
  btnText : String
  btnAria : String
  deriving DecidableEq, Repr

/-- Function `getThemePreference`: the saved preference if truthy, else the system
preference. -/
def getThemePreference (st : ThemeState) : String :=
  match st.storedTheme with
  | some saved =>
      if saved = "" then (if st.systemPrefersDark then "dark" else "light")
      else saved
  | none => if st.systemPrefersDark then "dark" else "light"

/-- Function `applyTheme`: set the `data-theme` attribute, save the preference to
`localStorage`, and update the toggle button icon if it exists. -/
def applyTheme (theme : String) (st : ThemeState) : ThemeState :=
  { st with
    dataTheme := some theme
    storedTheme := some theme
    btnText := if st.hasToggleBtn then (if theme = "dark" then "🌕" else "🌑")
               else st.btnText
    btnAria := if st.hasToggleBtn then
                 (if theme = "dark" then "Switch to light mode"
                  else "Switch to dark mode")
               else st.btnAria }

/-- Function `toggleTheme`: read the current attribute (absent means `light`) and
apply the opposite theme. -/
def toggleTheme (st : ThemeState) : ThemeState :=
  let current := st.dataTheme.getD "light"
  let next := if current = "dark" then "light" else "dark"
  applyTheme next st

/-- Function `initTheme`: apply the preferred theme on page load. -/
def initTheme (st : ThemeState) : ThemeState :=
  applyTheme (getThemePreference st) st

/-!
The two UI controllers.  Their retained in-memory state is the four
module-level variables (`currentHashes`, `lastInput` from the hash
controller; `currentKeys`, `lastCiphertext` from the RSA controller); the
localStorage of the browser is carried alongside to express frame properties.
All DOM/UI effects of a handler are recorded as a trace of events.
-/

/-- The retained state of the two controllers plus the persistent
`localStorage` contents. -/
structure AppState where
  currentHashes : List (String × String)
  lastInput : List ℕ
  currentKeys : Option RSACore.KeyPair
  lastCiphertext : Option ℕ
  localStorage : List (String × String)
  deriving DecidableEq, Repr

/-- The state right after page load: empty hashes, empty last input, no
keys, no ciphertext. -/
def initialState (store : List (String × String)) : AppState :=
  ⟨[], [], none, none, store⟩

/-- Observable UI effects of a handler run.  An awaited call into
`HashCore.computeHash` is recorded as a start event and an end event, so
that sequencing of the asynchronous calls is visible in the trace. -/
inductive Event where
  | showError (msg : String)
  | clearResults (ids : List String)
  | showLoading (id : String) (msg : String)
  | hideLoading (id : String)
  | computeStart (input : List ℕ) (algo : String)
  | computeEnd (input : List ℕ) (algo : String)
  | encryptCall (m : ℕ)
  | decryptCall (c : ℕ)
  | progressReport (html : String)
  | showPlaintext (plaintext : List ℕ)
  | displayResults (id : String)
  | setValue (id : String) (value : String)
  | setDisabled (id : String) (disabled : Bool)
  deriving DecidableEq, Repr

/-- Handler `handleComputeHash`: validate the input and the selection, then compute
the hash of the input under each selected algorithm in order, one awaited
call at a time, store the results and display them. -/
def handleComputeHash (hashFn : List ℕ → String → String)
    (input : List ℕ) (selectedAlgos : List String) (st : AppState) :
    AppState × List Event :=
  if input = [] then
    (st, [.showError "Please enter text to hash"])
  else if selectedAlgos = [] then
    (st, [.showError "Please select at least one hash algorithm"])
  else
    let results := selectedAlgos.map fun algo => (algo, hashFn input algo)
    ({ st with currentHashes := results, lastInput := input },
     [.clearResults ["hash-results"],
      .showLoading "hash-results" "Computing hashes..."] ++
     (selectedAlgos.flatMap fun algo =>
        [.computeStart input algo, .computeEnd input algo]) ++
     [.displayResults "hash-results", .hideLoading "hash-results"])

/-- Handler `handleAvalanche`: validate the base input, hash it, hash the modified
input with the last bit flipped, and display the comparison. -/
def handleAvalanche (baseInput : List ℕ) (algorithm : String)
    (st : AppState) : AppState × List Event :=
  if baseInput = [] then
    (st, [.showError "Please enter base text for avalanche test"])
  else
    let modified := modifiedInput baseInput
    (st,
     [.clearResults ["avalanche-results"],
      .showLoading "avalanche-results" "Computing avalanche effect...",
      .computeStart baseInput algorithm, .computeEnd baseInput algorithm,
      .computeStart modified algorithm, .computeEnd modified algorithm,
      .displayResults "avalanche-results", .hideLoading "avalanche-results"])

/-- Handler `handleBirthdayCalculator`: look the algorithm up in the configuration
and display the collision-probability analysis, or report an error for an
unknown algorithm. -/
def handleBirthdayCalculator (algorithm : String) (st : AppState) :
    AppState × List Event :=
  match getAlgorithmInfo algorithm with
  | none => (st, [.showError "Invalid algorithm selected"])
  | some _ => (st, [.displayResults "birthday-results"])

/-- Handler `handleGenerateKeys`: clear previous results, generate a key pair while
reporting progress for each stage, store the keys in `currentKeys`, display
them and enable the encrypt button.  `p` and `q` are the primes found by the
random prime search inside `RSACore.generateKeyPair`, `e` the public
exponent. -/
def handleGenerateKeys (p q e : ℕ) (st : AppState) :
    AppState × List Event :=
  let keys := RSACore.generateKeyPair p q e
  ({ st with currentKeys := some keys },
   [.clearResults ["key-gen-results", "encryption-results",
                   "decryption-results"],
    .showLoading "key-gen-progress" "Initializing key generation..."] ++
   (RSACore.keyGenStages.map fun stage =>
      .progressReport (updateProgress stage none)) ++
   [.displayResults "key-gen-results",
    .setDisabled "encrypt-btn" false,
    .hideLoading "key-gen-progress"])

/-- The maximum message length reported by `handleEncrypt` for modulus `n`:
`Math.floor(bitLength(n) / 8) - 1`, a JavaScript number, possibly `-1`. -/
def maxMessageBytes (n : ℕ) : ℤ := (MathUtils.bitLength n / 8 : ℕ) - 1

/-- The error message `handleEncrypt` shows for a message of `len`
characters whose integer encoding reaches the modulus `n`. -/
def messageTooLargeMsg (n : ℕ) (len : ℕ) : String :=
  "Message too large! Maximum message length: ~" ++
    toString (maxMessageBytes n) ++ " bytes. Your message: " ++
    toString len ++ " bytes."

/-- Handler `handleEncrypt`: require generated keys and a non-empty trimmed message,
reject messages whose integer encoding reaches the modulus, otherwise
encrypt with the public key, remember the ciphertext and display it. -/
def handleEncrypt (rawMessage : List ℕ) (st : AppState) :
    AppState × List Event :=
  match st.currentKeys with
  | none => (st, [.showError "Please generate keys first!"])
  | some keys =>
      let message := jsTrim rawMessage
      if message = [] then
        (st, [.showError "Please enter a message to encrypt"])
      else
        let messageInt := MathUtils.stringToBigInt message
        if keys.publicKey.n ≤ messageInt then
          (st, [.showError
            (messageTooLargeMsg keys.publicKey.n message.length)])
        else
          let ciphertext := RSACore.encrypt messageInt keys.publicKey
          ({ st with lastCiphertext := some ciphertext },
           [.encryptCall messageInt,
            .displayResults "encryption-results",
            .setValue "ciphertext-input" (toString ciphertext),
            .setDisabled "decrypt-btn" false])

/-- Handler `handleDecrypt`: require generated keys and a non-empty trimmed
ciphertext, parse it as a big integer (an unparsable value throws, surfaced
as an error message), decrypt with the private key and display the
plaintext. -/
def handleDecrypt (rawCiphertext : List ℕ) (st : AppState) :
    AppState × List Event :=
  match st.currentKeys with
  | none => (st, [.showError "Please generate keys first!"])
  | some keys =>
      let ciphertextStr := jsTrim rawCiphertext
      if ciphertextStr = [] then
        (st, [.showError "Please enter ciphertext to decrypt"])
      else
        match parseBigInt ciphertextStr with
        | none =>
            (st, [.showError "Decryption failed: Cannot convert to a BigInt"])
        | some ciphertext =>
            let plaintextInt := RSACore.decrypt ciphertext keys.privateKey
            (st, [.decryptCall ciphertext,
                  .showPlaintext (MathUtils.bigIntToString plaintextInt),
                  .displayResults "decryption-results"])

/-- A single user-facing operation together with the inputs it reads from
the DOM (and, for key generation, the primes found by the random search). -/
inductive Invocation where
  | computeHash (input : List ℕ) (selectedAlgos : List String)
  | avalanche (baseInput : List ℕ) (algorithm : String)
  | birthday (algorithm : String)
  | generateKeys (p q e : ℕ)
  | encryptMsg (rawMessage : List ℕ)
  | decryptMsg (rawCiphertext : List ℕ)
  deriving DecidableEq, Repr

/-- Run the handler corresponding to an invocation. -/
def runHandler (hashFn : List ℕ → String → String) (inv : Invocation)
    (st : AppState) : AppState × List Event :=
  match inv with
  | .computeHash input algos => handleComputeHash hashFn input algos st
  | .avalanche base algo => handleAvalanche base algo st
  | .birthday algo => handleBirthdayCalculator algo st
  | .generateKeys p q e => handleGenerateKeys p q e st
  | .encryptMsg raw => handleEncrypt raw st
  | .decryptMsg raw => handleDecrypt raw st

/-- The progress messages of a trace, in order. -/
def progressReports (tr : List Event) : List String :=
  tr.filterMap fun ev =>
    match ev with
    | .progressReport html => some html
    | _ => none

/-- The basic input-validation failures of the handlers: empty hash input or
no selected algorithm, empty avalanche base input, unknown birthday
algorithm, and missing keys or empty trimmed input for encryption and
decryption.  Key generation has no validation branch. -/
def validationFailure (inv : Invocation) (st : AppState) : Prop :=
  match inv with
  | .computeHash input algos => input = [] ∨ algos = []
  | .avalanche base _ => base = []
  | .birthday algo => getAlgorithmInfo algo = none
  | .generateKeys _ _ _ => False
  | .encryptMsg raw => st.currentKeys = none ∨ jsTrim raw = []
  | .decryptMsg raw => st.currentKeys = none ∨ jsTrim raw = []

instance (inv : Invocation) (st : AppState) :
    Decidable (validationFailure inv st) := by
  unfold validationFailure
  cases inv <;> infer_instance

/-- Whether an event is an invocation of the underlying hash computation
(`HashCore.computeHash`). -/
def isComputeEvent : Event → Bool
  | .computeStart _ _ => true
  | .computeEnd _ _ => true
  | _ => false

/-- A tiny concrete key pair (`p = 3`, `q = 11`, `e = 3`, `d = 7`) for
concrete checks. -/
def kp33 : RSACore.KeyPair := ⟨⟨33, 3⟩, ⟨33, 7⟩, 3, 11, 20⟩

/-- An app state holding the tiny key pair. -/
def st33 : AppState := ⟨[], [], some kp33, none, []⟩

/-!
Number-theoretic lemmas for the textbook RSA flow: correctness of the
extended-Euclid modular inverse, the Fermat step, and the encrypt/decrypt
round trip on residues.
-/

/-- The last element of the reversal of `a :: t` is `a`. -/
theorem getLast_reverse_cons (a : ℕ) (t : List ℕ)
    (h : (a :: t).reverse ≠ []) : ((a :: t).reverse).getLast h = a := by
  simp [List.reverse_cons, List.getLast_append]

/-- The modular inverse computed from the extended Euclidean algorithm is a
right inverse modulo `m` for any `a` coprime to `m`. -/
theorem modInverse_mul_modEq (a m : ℕ) (hm : 0 < m) (h : Nat.Coprime a m) :
    a * MathUtils.modInverse a m ≡ 1 [MOD m] := by
  have hm0 : (m : ℤ) ≠ 0 := by exact_mod_cast hm.ne'
  have hcast : ((MathUtils.modInverse a m : ℕ) : ℤ) = Nat.gcdA a m % (m : ℤ) := by
    unfold MathUtils.modInverse
    exact Int.toNat_of_nonneg (Int.emod_nonneg _ hm0)
  rw [← Int.natCast_modEq_iff]
  push_cast [hcast]
  have hsum : (1 : ℤ) = a * Nat.gcdA a m + m * Nat.gcdB a m := by
    have hb := Nat.gcd_eq_gcd_ab a m
    rw [Nat.Coprime] at h
    rw [h] at hb
    exact_mod_cast hb
  have h3 : (a : ℤ) * Nat.gcdA a m + (m : ℤ) * Nat.gcdB a m ≡
      (a : ℤ) * Nat.gcdA a m [ZMOD (m : ℤ)] := by
    show ((a : ℤ) * Nat.gcdA a m + (m : ℤ) * Nat.gcdB a m) % (m : ℤ) =
      ((a : ℤ) * Nat.gcdA a m) % (m : ℤ)
    exact Int.add_mul_emod_self_left _ _ _
  have h2 : (a : ℤ) * Nat.gcdA a m ≡ 1 [ZMOD (m : ℤ)] := by
    calc (a : ℤ) * Nat.gcdA a m
        ≡ (a : ℤ) * Nat.gcdA a m + (m : ℤ) * Nat.gcdB a m [ZMOD (m : ℤ)] :=
          h3.symm
      _ = 1 := hsum.symm
  have h1 : (a : ℤ) * (Nat.gcdA a m % (m : ℤ)) ≡
      (a : ℤ) * Nat.gcdA a m [ZMOD (m : ℤ)] :=
    Int.ModEq.mul_left _ (Int.emod_emod_of_dvd _ dvd_rfl)
  exact h1.trans h2

/-- The Fermat step of the RSA correctness argument: modulo a prime `p`,
raising to any exponent `t ≡ 1 (mod p - 1)`, `t ≥ 1`, fixes every residue,
whether or not it is a unit. -/
theorem pow_modEq_self_of_prime {p : ℕ} (hp : p.Prime) {t : ℕ} (ht : 1 ≤ t)
    (hdvd : (p - 1) ∣ t - 1) (m : ℕ) : m ^ t ≡ m [MOD p] := by
  obtain ⟨k, hk⟩ := hdvd
  have htk : t = (p - 1) * k + 1 := by
    have := hp.two_le
    omega
  rw [htk]
  by_cases hpm : p ∣ m
  · have h0 : m ≡ 0 [MOD p] := Nat.modEq_zero_iff_dvd.2 hpm
    calc m ^ ((p - 1) * k + 1)
        ≡ 0 ^ ((p - 1) * k + 1) [MOD p] := h0.pow _
      _ = 0 := by simp
      _ ≡ m [MOD p] := h0.symm
  · have hcop : Nat.Coprime m p :=
      Nat.coprime_comm.1 ((Nat.Prime.coprime_iff_not_dvd hp).2 hpm)
    have hf : m ^ (p - 1) ≡ 1 [MOD p] := by
      have hft := Nat.ModEq.pow_totient hcop
      rwa [Nat.totient_prime hp] at hft
    calc m ^ ((p - 1) * k + 1)
        = (m ^ (p - 1)) ^ k * m := by rw [pow_add, pow_mul, pow_one]
      _ ≡ 1 ^ k * m [MOD p] := (hf.pow k).mul_right m
      _ = m := by rw [one_pow, one_mul]

/-- The Euler totient of a product of two distinct primes is at least 2. -/
theorem two_le_phi_of_distinct_primes {p q : ℕ} (hp : p.Prime)
    (hq : q.Prime) (hpq : p ≠ q) : 2 ≤ (p - 1) * (q - 1) := by
  have hp2 := hp.two_le
  have hq2 := hq.two_le
  have h3 : 3 ≤ p ∨ 3 ≤ q := by omega
  rcases h3 with h | h
  · calc 2 = 2 * 1 := rfl
      _ ≤ (p - 1) * (q - 1) := Nat.mul_le_mul (by omega) (by omega)
  · calc 2 = 1 * 2 := rfl
      _ ≤ (p - 1) * (q - 1) := Nat.mul_le_mul (by omega) (by omega)

/-- Core RSA correctness on residues: with `n = p * q` a product of distinct
primes and exponents satisfying `e * d ≡ 1 (mod (p-1)(q-1))`, decryption
inverts encryption on every message below the modulus. -/
theorem rsa_correct {p q e d : ℕ} (hp : p.Prime) (hq : q.Prime)
    (hpq : p ≠ q) (hed : e * d ≡ 1 [MOD (p - 1) * (q - 1)]) (m : ℕ)
    (hm : m < p * q) : (m ^ e % (p * q)) ^ d % (p * q) = m := by
  have hphi2 : 2 ≤ (p - 1) * (q - 1) := two_le_phi_of_distinct_primes hp hq hpq
  have ht1 : 1 ≤ e * d := by
    by_contra hcon
    have h0 : e * d = 0 := by omega
    rw [h0] at hed
    have hed2 : 0 % ((p - 1) * (q - 1)) = 1 % ((p - 1) * (q - 1)) := hed
    rw [Nat.zero_mod, Nat.mod_eq_of_lt (by omega)] at hed2
    exact one_ne_zero hed2.symm
  have hdvd : (p - 1) * (q - 1) ∣ e * d - 1 :=
    (Nat.modEq_iff_dvd' ht1).1 hed.symm
  have hP : m ^ (e * d) ≡ m [MOD p] :=
    pow_modEq_self_of_prime hp ht1 ((dvd_mul_right _ _).trans hdvd) m
  have hQ : m ^ (e * d) ≡ m [MOD q] :=
    pow_modEq_self_of_prime hq ht1 ((dvd_mul_left _ _).trans hdvd) m
  have hN : m ^ (e * d) ≡ m [MOD p * q] :=
    (Nat.modEq_and_modEq_iff_modEq_mul
      ((Nat.coprime_primes hp hq).2 hpq)).1 ⟨hP, hQ⟩
  calc (m ^ e % (p * q)) ^ d % (p * q)
      = (m ^ e) ^ d % (p * q) := by rw [← Nat.pow_mod]
    _ = m ^ (e * d) % (p * q) := by rw [← pow_mul]
    _ = m % (p * q) := hN
    _ = m := Nat.mod_eq_of_lt hm

/-- Decoding inverts encoding on any character-code list whose codes are
bytes and whose leading code is nonzero. -/
theorem bigIntToString_stringToBigInt {s : List ℕ}
    (hbytes : ∀ c ∈ s, c < 256) (hlead : s.head? ≠ some 0) :
    MathUtils.bigIntToString (MathUtils.stringToBigInt s) = s := by
  unfold MathUtils.bigIntToString MathUtils.stringToBigInt
  rw [Nat.digits_ofDigits 256 (by norm_num) s.reverse
      (fun l hl => hbytes l (List.mem_reverse.1 hl)) ?hlast,
    List.reverse_reverse]
  case hlast =>
    intro hne
    cases s with
    | nil => simp at hne
    | cons a t =>
        have ha : a ≠ 0 := by simpa using hlead
        rw [getLast_reverse_cons a t hne]
        exact ha

/-!
Claim theorems.
-/

/-- C1: for every RSA key pair produced by key generation (from distinct
primes `p`, `q` and a public exponent coprime to the totient) and every
plaintext message (byte-range character codes, nonzero leading code) whose
integer encoding is strictly less than the public modulus, decrypting with
the private key the ciphertext obtained by encrypting the message integer
with the public key and converting the result back to a string recovers the
original message. -/
theorem rsa_encrypt_decrypt_roundtrip (p q e : ℕ) (hp : p.Prime)
    (hq : q.Prime) (hpq : p ≠ q)
    (he : Nat.Coprime e ((p - 1) * (q - 1))) (msg : List ℕ)
    (hbytes : ∀ c ∈ msg, c < 256) (hlead : msg.head? ≠ some 0)
    (hlt : MathUtils.stringToBigInt msg <
      (RSACore.generateKeyPair p q e).publicKey.n) :
    MathUtils.bigIntToString
      (RSACore.decrypt
        (RSACore.encrypt (MathUtils.stringToBigInt msg)
          (RSACore.generateKeyPair p q e).publicKey)
        (RSACore.generateKeyPair p q e).privateKey) = msg := by
  have hphi : 0 < (p - 1) * (q - 1) :=
    lt_of_lt_of_le (by norm_num) (two_le_phi_of_distinct_primes hp hq hpq)
  have hed : e * MathUtils.modInverse e ((p - 1) * (q - 1)) ≡ 1
      [MOD (p - 1) * (q - 1)] := modInverse_mul_modEq e _ hphi he
  have hlt2 : MathUtils.stringToBigInt msg < p * q := by
    simpa [RSACore.generateKeyPair] using hlt
  have hcore := rsa_correct hp hq hpq hed (MathUtils.stringToBigInt msg) hlt2
  simp only [RSACore.generateKeyPair, RSACore.encrypt, RSACore.decrypt]
  rw [hcore]
  exact bigIntToString_stringToBigInt hbytes hlead

/-- Witness for C1 at `p = 3`, `q = 11`, `e = 3` and the one-character
message `[2]`. -/
theorem rsa_encrypt_decrypt_roundtrip_witness :
    MathUtils.bigIntToString
      (RSACore.decrypt
        (RSACore.encrypt (MathUtils.stringToBigInt [2])
          (RSACore.generateKeyPair 3 11 3).publicKey)
        (RSACore.generateKeyPair 3 11 3).privateKey) = [2] :=
  rsa_encrypt_decrypt_roundtrip 3 11 3 (by norm_num) (by norm_num)
    (by norm_num) (by decide) [2] (by decide) (by decide) (by decide)

/-- C8: for a non-empty base input, the modified input built by
`handleAvalanche` has the same length, agrees with the base input on all
code units but the last, its last code unit differs from the last code unit
of the base input in exactly one bit, and is never the DEL character 127. -/
theorem avalanche_modifiedInput_spec (s : List ℕ) (hne : s ≠ []) :
    (modifiedInput s).length = s.length ∧
    (modifiedInput s).dropLast = s.dropLast ∧
    (∃ k, s.getLastD 0 ^^^ (modifiedInput s).getLastD 0 = 2 ^ k) ∧
    (modifiedInput s).getLastD 0 ≠ 127 := by
  have hlen : 1 ≤ s.length := List.length_pos.2 hne
  have hdrop : (modifiedInput s).dropLast = s.dropLast := by
    unfold modifiedInput
    rw [List.dropLast_concat]
  have hlast : (modifiedInput s).getLastD 0 = flipLastCodeUnit (s.getLastD 0) := by
    unfold modifiedInput
    rw [List.getLastD_concat]
  refine ⟨?_, hdrop, ?_, ?_⟩
  · unfold modifiedInput
    rw [List.length_append, List.length_dropLast]
    simp
    omega
  · rw [hlast]
    unfold flipLastCodeUnit
    by_cases hc : s.getLastD 0 = 126
    · rw [if_pos hc, hc]
      exact ⟨1, by decide⟩
    · rw [if_neg hc]
      refine ⟨0, ?_⟩
      rw [← Nat.xor_assoc, Nat.xor_self, Nat.zero_xor]
      rfl
  · rw [hlast]
    unfold flipLastCodeUnit
    by_cases hc : s.getLastD 0 = 126
    · rw [if_pos hc]
      decide
    · rw [if_neg hc]
      intro h127
      apply hc
      have h2 := congrArg (· ^^^ 1) h127
      simpa [Nat.xor_assoc] using h2

/-- Witness for C8 at the one-character base input `[65]`. -/
theorem avalanche_modifiedInput_spec_witness :
    (modifiedInput [65]).length = ([65] : List ℕ).length ∧
    (modifiedInput [65]).dropLast = ([65] : List ℕ).dropLast ∧
    (∃ k, ([65] : List ℕ).getLastD 0 ^^^ (modifiedInput [65]).getLastD 0 = 2 ^ k) ∧
    (modifiedInput [65]).getLastD 0 ≠ 127 :=
  avalanche_modifiedInput_spec [65] (by decide)

/-- C9: the avalanche quality label is a total function of the percentage:
`Excellent` exactly on `[45, 55]`, `Good` exactly on `[40, 60]` outside
`[45, 55]`, and `Poor` exactly outside `[40, 60]`. -/
theorem avalancheQuality_characterization (p : ℚ) :
    (avalancheQuality p = "Excellent" ↔ 45 ≤ p ∧ p ≤ 55) ∧
    (avalancheQuality p = "Good" ↔
      (40 ≤ p ∧ p ≤ 60) ∧ ¬(45 ≤ p ∧ p ≤ 55)) ∧
    (avalancheQuality p = "Poor" ↔ ¬(40 ≤ p ∧ p ≤ 60)) := by
  unfold avalancheQuality
  split_ifs with h1 h2
  · refine ⟨⟨fun _ => h1, fun _ => rfl⟩, ⟨?_, ?_⟩, ⟨?_, ?_⟩⟩
    · intro h; exact absurd h (by decide)
    · intro h; exact absurd h1 h.2
    · intro h; exact absurd h (by decide)
    · intro h
      exact absurd ⟨by linarith [h1.1], by linarith [h1.2]⟩ h
  · refine ⟨⟨?_, ?_⟩, ⟨fun _ => ⟨h2, h1⟩, fun _ => rfl⟩, ⟨?_, ?_⟩⟩
    · intro h; exact absurd h (by decide)
    · intro h; exact absurd h h1
    · intro h; exact absurd h (by decide)
    · intro h; exact absurd h2 h
  · refine ⟨⟨?_, ?_⟩, ⟨?_, ?_⟩, ⟨fun _ => h2, fun _ => rfl⟩⟩
    · intro h; exact absurd h (by decide)
    · intro h
      exact absurd ⟨by linarith [h.1], by linarith [h.2]⟩ h2
    · intro h; exact absurd h (by decide)
    · intro h; exact absurd h.1 h2

/-- C10: a single `toggleTheme` call always sets the `data-theme` attribute
to one of the two values `dark` and `light` and never to the treated current
value (absent meaning `light`); consequently, from every starting value in
those two values, two successive calls restore the attribute. -/
theorem toggleTheme_involution (st : ThemeState) :
    ((toggleTheme st).dataTheme = some "dark" ∨
      (toggleTheme st).dataTheme = some "light") ∧
    (toggleTheme st).dataTheme ≠ some (st.dataTheme.getD "light") ∧
    (∀ v, (v = "dark" ∨ v = "light") → st.dataTheme = some v →
      (toggleTheme (toggleTheme st)).dataTheme = some v) := by
  refine ⟨?_, ?_, ?_⟩
  · by_cases hc : st.dataTheme.getD "light" = "dark"
    · right; simp [toggleTheme, applyTheme, hc]
    · left; simp [toggleTheme, applyTheme, hc]
  · by_cases hc : st.dataTheme.getD "light" = "dark"
    · simp only [toggleTheme, applyTheme, if_pos hc, hc]
      decide
    · simp only [toggleTheme, applyTheme, if_neg hc]
      intro h
      exact hc (Option.some_injective _ h).symm
  · intro v hv hst
    rcases hv with rfl | rfl <;>
      simp [toggleTheme, applyTheme, hst]

/-- Witness for C10: starting from the attribute value `dark`, two calls
restore `dark`. -/
theorem toggleTheme_involution_witness :
    (toggleTheme (toggleTheme
      (⟨some "dark", none, false, false, "", ""⟩ : ThemeState))).dataTheme =
      some "dark" :=
  (toggleTheme_involution ⟨some "dark", none, false, false, "", ""⟩).2.2
    "dark" (Or.inl rfl) rfl

/-- C2 counterexample: toggling the theme on a browser state with empty
storage changes the persisted `theme` key, so theme toggling does change the
persistent storage of the browser. -/
theorem toggleTheme_writes_localStorage :
    (toggleTheme ⟨none, none, false, false, "", ""⟩).storedTheme ≠
      (⟨none, none, false, false, "", ""⟩ : ThemeState).storedTheme := by
  decide

/-- C2 amended: no hash or RSA handler invocation changes `localStorage`,
while theme initialization and toggling write exactly the `theme` key (via
`applyTheme`, which persists the applied theme). -/
theorem handlers_localStorage_frame :
    (∀ (hashFn : List ℕ → String → String) (inv : Invocation)
        (st : AppState),
      (runHandler hashFn inv st).1.localStorage = st.localStorage) ∧
    (∀ (theme : String) (st : ThemeState),
      (applyTheme theme st).storedTheme = some theme) := by
  constructor
  · intro hashFn inv st
    cases inv with
    | computeHash input algos =>
        simp only [runHandler, handleComputeHash]
        split_ifs <;> rfl
    | avalanche base algo =>
        simp only [runHandler, handleAvalanche]
        split_ifs <;> rfl
    | birthday algo =>
        simp only [runHandler, handleBirthdayCalculator]
        cases getAlgorithmInfo algo <;> rfl
    | generateKeys p q e => rfl
    | encryptMsg raw =>
        simp only [runHandler, handleEncrypt]
        rcases hk : st.currentKeys with _ | keys <;> simp only [hk]
        split_ifs <;> rfl
    | decryptMsg raw =>
        simp only [runHandler, handleDecrypt]
        rcases hk : st.currentKeys with _ | keys <;> simp only [hk]
        split_ifs with h1
        · rfl
        · cases parseBigInt (jsTrim raw) <;> rfl
  · intro theme st
    rfl

/-- C3 counterexample: the same `handleEncrypt` invocation with the same
inputs produces different results depending on whether a key-generation
operation ran before, so results do depend on mutable state retained across
invocations (`currentKeys`). -/
theorem handleEncrypt_depends_on_prior_keygen :
    (runHandler (fun _ _ => "") (.encryptMsg [2])
        (runHandler (fun _ _ => "") (.generateKeys 3 11 3)
          (initialState [])).1).2 ≠
      (runHandler (fun _ _ => "") (.encryptMsg [2]) (initialState [])).2 := by
  decide

/-- C3 amended: each operation is a deterministic function of its inputs
and of the retained module-level state (`currentHashes`, `lastInput`,
`currentKeys`, `lastCiphertext`) — two runs on equal inputs and equal
retained state give equal traces and equal resulting retained state — but
encryption and decryption do read `currentKeys`, which is retained across
invocations, so the demo logic is not stateless. -/
theorem handlers_deterministic_in_retained_state
    (hashFn : List ℕ → String → String) (inv : Invocation)
    (st st' : AppState)
    (hH : st.currentHashes = st'.currentHashes)
    (hI : st.lastInput = st'.lastInput)
    (hK : st.currentKeys = st'.currentKeys)
    (hC : st.lastCiphertext = st'.lastCiphertext) :
    (runHandler hashFn inv st).2 = (runHandler hashFn inv st').2 ∧
    (runHandler hashFn inv st).1.currentHashes =
      (runHandler hashFn inv st').1.currentHashes ∧
    (runHandler hashFn inv st).1.lastInput =
      (runHandler hashFn inv st').1.lastInput ∧
    (runHandler hashFn inv st).1.currentKeys =
      (runHandler hashFn inv st').1.currentKeys ∧
    (runHandler hashFn inv st).1.lastCiphertext =
      (runHandler hashFn inv st').1.lastCiphertext := by
  obtain ⟨h1, i1, k1, c1, l1⟩ := st
  obtain ⟨h2, i2, k2, c2, l2⟩ := st'
  dsimp only at hH hI hK hC
  subst hH
  subst hI
  subst hK
  subst hC
  cases inv with
  | computeHash input algos =>
      simp only [runHandler, handleComputeHash]
      split_ifs <;> exact ⟨rfl, rfl, rfl, rfl, rfl⟩
  | avalanche base algo =>
      simp only [runHandler, handleAvalanche]
      split_ifs <;> exact ⟨rfl, rfl, rfl, rfl, rfl⟩
  | birthday algo =>
      simp only [runHandler, handleBirthdayCalculator]
      cases getAlgorithmInfo algo <;> exact ⟨rfl, rfl, rfl, rfl, rfl⟩
  | generateKeys p q e =>
      exact ⟨rfl, rfl, rfl, rfl, rfl⟩
  | encryptMsg raw =>
      simp only [runHandler, handleEncrypt]
      cases k1 with
      | none => exact ⟨rfl, rfl, rfl, rfl, rfl⟩
      | some keys =>
          by_cases h1 : jsTrim raw = [] <;>
            by_cases h2 : keys.publicKey.n ≤
              MathUtils.stringToBigInt (jsTrim raw) <;>
              simp [h1, h2]
  | decryptMsg raw =>
      simp only [runHandler, handleDecrypt]
      cases k1 with
      | none => exact ⟨rfl, rfl, rfl, rfl, rfl⟩
      | some keys =>
          by_cases h1 : jsTrim raw = []
          · simp [h1]
          · cases hp : parseBigInt (jsTrim raw) <;> simp [h1, hp]

/-- Witness for the amended C3: two states that agree on the retained
module-level variables but differ in `localStorage` yield the same trace and
retained state for a concrete hash computation. -/
theorem handlers_deterministic_in_retained_state_witness :
    (runHandler (fun _ algo => algo) (.computeHash [72] ["sha256"])
        (initialState [])).2 =
      (runHandler (fun _ algo => algo) (.computeHash [72] ["sha256"])
        (initialState [("theme", "dark")])).2 ∧
    (runHandler (fun _ algo => algo) (.computeHash [72] ["sha256"])
        (initialState [])).1.currentHashes =
      (runHandler (fun _ algo => algo) (.computeHash [72] ["sha256"])
        (initialState [("theme", "dark")])).1.currentHashes ∧
    (runHandler (fun _ algo => algo) (.computeHash [72] ["sha256"])
        (initialState [])).1.lastInput =
      (runHandler (fun _ algo => algo) (.computeHash [72] ["sha256"])
        (initialState [("theme", "dark")])).1.lastInput ∧
    (runHandler (fun _ algo => algo) (.computeHash [72] ["sha256"])
        (initialState [])).1.currentKeys =
      (runHandler (fun _ algo => algo) (.computeHash [72] ["sha256"])
        (initialState [("theme", "dark")])).1.currentKeys ∧
    (runHandler (fun _ algo => algo) (.computeHash [72] ["sha256"])
        (initialState [])).1.lastCiphertext =
      (runHandler (fun _ algo => algo) (.computeHash [72] ["sha256"])
        (initialState [("theme", "dark")])).1.lastCiphertext :=
  handlers_deterministic_in_retained_state (fun _ algo => algo)
    (.computeHash [72] ["sha256"]) (initialState [])
    (initialState [("theme", "dark")]) rfl rfl rfl rfl

/-- C4: whenever the basic input validation of a handler fails (empty hash input
or no selected algorithm, empty avalanche base input, unknown birthday
algorithm, missing keys or empty trimmed input for encryption/decryption),
the handler shows exactly one error message and returns: the retained state
(`currentHashes`, `lastInput`, `currentKeys`, `lastCiphertext`) is unchanged
and no underlying computation is invoked (the trace is the single error
event). -/
theorem validation_failure_frame (hashFn : List ℕ → String → String)
    (inv : Invocation) (st : AppState) (h : validationFailure inv st) :
    (runHandler hashFn inv st).1 = st ∧
    ∃ msg, (runHandler hashFn inv st).2 = [Event.showError msg] := by
  cases inv with
  | computeHash input algos =>
      rcases h with h | h
      · simp [runHandler, handleComputeHash, h]
      · by_cases hin : input = []
        · simp [runHandler, handleComputeHash, hin]
        · simp [runHandler, handleComputeHash, hin, h]
  | avalanche base algo =>
      replace h : base = [] := h
      simp [runHandler, handleAvalanche, h]
  | birthday algo =>
      replace h : getAlgorithmInfo algo = none := h
      simp [runHandler, handleBirthdayCalculator, h]
  | generateKeys p q e => exact h.elim
  | encryptMsg raw =>
      rcases hk : st.currentKeys with _ | keys
      · simp [runHandler, handleEncrypt, hk]
      · rcases h with h | h
        · rw [hk] at h
          exact absurd h (by simp)
        · simp [runHandler, handleEncrypt, hk, h]
  | decryptMsg raw =>
      rcases hk : st.currentKeys with _ | keys
      · simp [runHandler, handleDecrypt, hk]
      · rcases h with h | h
        · rw [hk] at h
          exact absurd h (by simp)
        · simp [runHandler, handleDecrypt, hk, h]

/-- Witness for C4: computing hashes with an empty input leaves the state
unchanged and produces a single error message. -/
theorem validation_failure_frame_witness :
    (runHandler (fun _ algo => algo) (.computeHash [] ["sha256"])
        (initialState [])).1 = initialState [] ∧
    ∃ msg, (runHandler (fun _ algo => algo) (.computeHash [] ["sha256"])
        (initialState [])).2 = [Event.showError msg] :=
  validation_failure_frame (fun _ algo => algo) (.computeHash [] ["sha256"])
    (initialState []) (Or.inl rfl)

/-- C5: `RSACore.encrypt` is invoked only on message integers strictly below
the public modulus — any `encryptCall` in an encryption trace carries an
integer below `n` — and when the encoded message reaches the modulus,
`handleEncrypt` reports the message-too-large error (with maximum length
`floor(bitLength(n) / 8) - 1` bytes) and returns with the state, in
particular `lastCiphertext`, unchanged. -/
theorem encrypt_only_below_modulus (rawMessage : List ℕ) (st : AppState) :
    (∀ m, Event.encryptCall m ∈ (handleEncrypt rawMessage st).2 →
      ∃ keys, st.currentKeys = some keys ∧ m < keys.publicKey.n) ∧
    (∀ keys, st.currentKeys = some keys → jsTrim rawMessage ≠ [] →
      keys.publicKey.n ≤ MathUtils.stringToBigInt (jsTrim rawMessage) →
      (handleEncrypt rawMessage st).1 = st ∧
      (handleEncrypt rawMessage st).2 = [Event.showError
        (messageTooLargeMsg keys.publicKey.n (jsTrim rawMessage).length)]) := by
  constructor
  · intro m hm
    rcases hk : st.currentKeys with _ | keys
    · simp [handleEncrypt, hk] at hm
    · by_cases h1 : jsTrim rawMessage = []
      · simp [handleEncrypt, hk, h1] at hm
      · by_cases h2 : keys.publicKey.n ≤
            MathUtils.stringToBigInt (jsTrim rawMessage)
        · simp [handleEncrypt, hk, h1, h2] at hm
        · simp [handleEncrypt, hk, h1, h2] at hm
          refine ⟨keys, rfl, ?_⟩
          rw [hm]
          omega
  · intro keys hkeys h1 h2
    simp [handleEncrypt, hkeys, h1, h2]

/-- Witness for C5 with the tiny key pair (`n = 33`) and the one-character
message `[65]`, whose encoding 65 reaches the modulus. -/
theorem encrypt_only_below_modulus_witness :
    (handleEncrypt [65] st33).1 = st33 ∧
    (handleEncrypt [65] st33).2 = [Event.showError
      (messageTooLargeMsg kp33.publicKey.n (jsTrim [65]).length)] :=
  (encrypt_only_below_modulus [65] st33).2 kp33 rfl (by decide) (by decide)

/-- C6: key generation reports its stages in a fixed order — prime `p`
(step 1/4), prime `q` (step 2/4), modulus and totient (both step 3/4),
private exponent (step 4/4), then the completion message — and nothing
else. -/
theorem keygen_progress_order (hashFn : List ℕ → String → String)
    (p q e : ℕ) (st : AppState) :
    progressReports (runHandler hashFn (.generateKeys p q e) st).2 =
      ["<p><strong>Step 1/4:</strong> Generating prime p...</p>",
       "<p><strong>Step 2/4:</strong> Generating prime q...</p>",
       "<p><strong>Step 3/4:</strong> Computing modulus n = p × q...</p>",
       "<p><strong>Step 3/4:</strong> Computing Euler\x27s totient φ(n)...</p>",
       "<p><strong>Step 4/4:</strong> Computing private exponent d...</p>",
       "<p><strong>✓ Key generation complete!</strong></p>"] := by
  rfl

/-- Filtering the interleaved start/end computation events of a list of
algorithms keeps all of them. -/
theorem filter_compute_flatMap (input : List ℕ) (l : List String) :
    ((l.flatMap fun algo =>
        [Event.computeStart input algo, Event.computeEnd input algo]).filter
      isComputeEvent) =
      l.flatMap fun algo =>
        [Event.computeStart input algo, Event.computeEnd input algo] := by
  induction l with
  | nil => rfl
  | cons a t ih => simp [isComputeEvent, ih]

/-- C7: with a non-empty input and a non-empty selection,
`handleComputeHash` awaits one hash computation per selected algorithm, in
selection order and one at a time (the computation events of the trace are
exactly the consecutive start/end pairs in selection order), and stores as
results every selected algorithm, and only those, mapped to its hash. -/
theorem computeHash_sequential (hashFn : List ℕ → String → String)
    (input : List ℕ) (selectedAlgos : List String) (st : AppState)
    (hin : input ≠ []) (halg : selectedAlgos ≠ []) :
    (handleComputeHash hashFn input selectedAlgos st).1.currentHashes =
      selectedAlgos.map (fun algo => (algo, hashFn input algo)) ∧
    ((handleComputeHash hashFn input selectedAlgos st).2.filter
        isComputeEvent) =
      selectedAlgos.flatMap (fun algo =>
        [Event.computeStart input algo, Event.computeEnd input algo]) := by
  constructor
  · simp [handleComputeHash, hin, halg]
  · simp [handleComputeHash, hin, halg, List.filter_append, isComputeEvent,
      filter_compute_flatMap input selectedAlgos]

/-- Witness for C7 at input `[72]` and two selected algorithms. -/
theorem computeHash_sequential_witness :
    (handleComputeHash (fun _ _ => "h") [72] ["sha256", "md5"]
        (initialState [])).1.currentHashes =
      [("sha256", "h"), ("md5", "h")] ∧
    ((handleComputeHash (fun _ _ => "h") [72] ["sha256", "md5"]
        (initialState [])).2.filter isComputeEvent) =
      [Event.computeStart [72] "sha256", Event.computeEnd [72] "sha256",
       Event.computeStart [72] "md5", Event.computeEnd [72] "md5"] :=
  computeHash_sequential (fun _ _ => "h") [72] ["sha256", "md5"]
    (initialState []) (by decide) (by decide)
